import Mathlib

/-!
# Verification of the mtw-e2e-runner parallel test execution engine

Shallow embedding of the scheduler, retry controller, action loop,
backpressure gate and pool-status query of `src/runner.js` and
`src/pool.js`, with theorems checking the specification's claims.

Conventions of the embedding:
* JS `a ?? b` on possibly-absent fields becomes `Option.getD` on an
  `Option` field.
* Asynchronous execution of browser actions is abstracted by oracles
  (`Nat → TestResult`, `Nat → Nat → Option String`, ...) giving the
  outcome of each attempt; wall-clock durations are explicit `Nat`s.
* The concurrent worker pool is a small-step machine whose states count
  idle / running / exited workers; workers are interchangeable, so a
  multiset-style state is a faithful picture of the N identical `worker()`
  tasks of `runTestsParallel`.
-/

set_option autoImplicit false

namespace E2eRunner

/-- One action of a test (`ActionSpec`): a type tag plus the optional
per-action retry override used by the scheduler (`action.retries`). All
other fields are opaque to the scheduler and omitted. -/
structure Action where
  type : String
  retries : Option Nat := none
deriving Repr, DecidableEq

/-- One test (`TestSpec`) as consumed by `runTestsParallel`:
`{ name, serial, retries, timeout, actions }`. -/
structure Test where
  name : String
  serial : Bool := false
  retries : Option Nat := none
  timeout : Option Nat := none
  actions : List Action := []
deriving Repr, DecidableEq

/-- The four hook action sequences (`HookSet`). A missing key in the JS
object is the empty list. -/
structure HookSet where
  beforeAll : List Action := []
  afterAll : List Action := []
  beforeEach : List Action := []
  afterEach : List Action := []
deriving Repr, DecidableEq

/-- The configuration fields of `config` read by the runner; absent JS
fields are `none`. -/
structure RunConfig where
  concurrency : Option Nat := none
  retries : Option Nat := none
  testTimeout : Option Nat := none
  actionRetries : Option Nat := none
  retryDelay : Option Nat := none
  hooks : Option HookSet := none
deriving Repr, DecidableEq

/-- Per-action outcome entry pushed onto `result.actions` in `runTest`:
the spread action plus success flag, optional error and the
`actionRetries` tag recorded by the action retry loop. -/
structure ActionEntry where
  action : Action
  success : Bool
  error : Option String := none
  actionRetries : Option Nat := none
deriving Repr, DecidableEq

/-- A `TestResult` as built by `runTest` / the worker loop (side-channel
diagnostics `consoleLogs`/`networkErrors`/`networkLogs` and timestamps are
opaque to every claim and omitted). -/
structure TestResult where
  name : String
  actions : List ActionEntry := []
  success : Bool := true
  error : Option String := none
  attempt : Nat := 0
  maxAttempts : Nat := 0
deriving Repr, DecidableEq

/-- `mergeHooks(configHooks, suiteHooks)` of runner.js: non-empty suite
hooks win per key, otherwise the global config hooks apply. `none` models
a JS `undefined`/`null` argument. -/
def mergeHooks (configHooks : Option HookSet) (suiteHooks : Option HookSet) : HookSet :=
  let base := configHooks.getD {}
  match suiteHooks with
  | none => base
  | some sh =>
    { beforeAll := if sh.beforeAll.isEmpty then base.beforeAll else sh.beforeAll
      afterAll := if sh.afterAll.isEmpty then base.afterAll else sh.afterAll
      beforeEach := if sh.beforeEach.isEmpty then base.beforeEach else sh.beforeEach
      afterEach := if sh.afterEach.isEmpty then base.afterEach else sh.afterEach }

/-! ## Retry controller (worker loop of `runTestsParallel`, lines 326-360)

One attempt of a test is abstracted by an oracle `att : Nat → TestResult`
giving the result of attempt number `k` (already including the timeout
race of lines 330-351, modelled separately below). -/

/-- `maxAttempts = (test.retries ?? config.retries ?? 0) + 1` (line 326). -/
def maxAttemptsOf (test : Test) (config : RunConfig) : Nat :=
  (test.retries.getD (config.retries.getD 0)) + 1

/-- `result.attempt = attempt; result.maxAttempts = maxAttempts`
(lines 353-354). -/
def tagResult (r : TestResult) (attempt m : Nat) : TestResult :=
  { r with attempt := attempt, maxAttempts := m }

/-- The `for (let attempt = 1; attempt <= maxAttempts; attempt++)` loop
with `if (result.success || attempt === maxAttempts) break;`
(lines 330-360). Since the loop enters with `a = 1 ≤ m` and increments by
one, the break condition `attempt === maxAttempts` is reached exactly when
`m ≤ a` first holds, which is the guard used here for termination. -/
def workerAttemptLoop (att : Nat → TestResult) (m a : Nat) : TestResult :=
  let r := tagResult (att a) a m
  if r.success ∨ m ≤ a then r
  else workerAttemptLoop att m (a + 1)
termination_by m - a
decreasing_by simp only [not_or, not_le] at *; omega

/-- The retry controller for one test: attempts start at 1. -/
def runWithRetries (att : Nat → TestResult) (test : Test) (config : RunConfig) : TestResult :=
  workerAttemptLoop att (maxAttemptsOf test config) 1

theorem tagResult_success (r : TestResult) (a m : Nat) :
    (tagResult r a m).success = r.success := rfl

/-- If every attempt from `a` through `m` fails, the loop runs to the
final allowed attempt `m` and returns its tagged result. -/
theorem workerAttemptLoop_of_all_fail (att : Nat → TestResult) (m : Nat) :
    ∀ n a, n = m - a → a ≤ m → (∀ k, a ≤ k → k ≤ m → (att k).success = false) →
    workerAttemptLoop att m a = tagResult (att m) m m := by
  intro n
  induction n with
  | zero =>
    intro a hn ham _
    have ham' : a = m := by omega
    subst ham'
    rw [workerAttemptLoop]
    simp
  | succ n ih =>
    intro a hn ham hfail
    have hlt : a < m := by omega
    have hfa : (att a).success = false := hfail a le_rfl ham
    rw [workerAttemptLoop]
    simp only [tagResult_success, hfa]
    rw [if_neg (by simp [Nat.not_le.mpr hlt])]
    exact ih (a + 1) (by omega) hlt (fun k hk hk2 => hfail k (by omega) hk2)

/-- If attempt `k` is the first success at or after `a` (and `k ≤ m`), the
loop stops there and returns attempt `k`'s tagged result. -/
theorem workerAttemptLoop_of_first_success (att : Nat → TestResult) (m : Nat) :
    ∀ n a k, n = k - a → a ≤ k → k ≤ m → (att k).success = true →
    (∀ j, a ≤ j → j < k → (att j).success = false) →
    workerAttemptLoop att m a = tagResult (att k) k m := by
  intro n
  induction n with
  | zero =>
    intro a k hn hak _ hsucc _
    have hak' : a = k := by omega
    subst hak'
    rw [workerAttemptLoop]
    simp [tagResult_success, hsucc]
  | succ n ih =>
    intro a k hn hak hkm hsucc hbefore
    have hlt : a < k := by omega
    have hfa : (att a).success = false := hbefore a le_rfl hlt
    rw [workerAttemptLoop]
    simp only [tagResult_success, hfa]
    rw [if_neg (by simp; omega)]
    exact ih (a + 1) k (by omega) hlt hkm hsucc (fun j hj hj2 => hbefore j (by omega) hj2)

/-- Concrete attempt oracle for the C1 witness: attempts succeed from
number 2 on. -/
def c1Att : Nat → TestResult := fun k => { name := "t", success := decide (2 ≤ k) }

/-- Concrete test for the C1 witness. -/
def c1Test : Test := { name := "t", retries := some 3 }

/-- C1: the retry controller computes
`maxAttempts = (test.retries ?? config.retries ?? 0) + 1`, runs attempts
`1..maxAttempts` stopping at the first success, and tags the returned
result with `maxAttempts` and with `attempt` = the last attempt run: if
every attempt fails the result has `attempt = maxAttempts`,
`success = false`; if the first successful attempt is `k ≤ maxAttempts`
the result has `success = true`, `attempt = k`. -/
theorem retry_controller_spec (test : Test) (config : RunConfig) (att : Nat → TestResult) :
    maxAttemptsOf test config = (test.retries.getD (config.retries.getD 0)) + 1
    ∧ ((∀ k, 1 ≤ k → k ≤ maxAttemptsOf test config → (att k).success = false) →
        (runWithRetries att test config).attempt = maxAttemptsOf test config
        ∧ (runWithRetries att test config).maxAttempts = maxAttemptsOf test config
        ∧ (runWithRetries att test config).success = false)
    ∧ (∀ k, 1 ≤ k → k ≤ maxAttemptsOf test config → (att k).success = true →
        (∀ j, 1 ≤ j → j < k → (att j).success = false) →
        (runWithRetries att test config).success = true
        ∧ (runWithRetries att test config).attempt = k
        ∧ (runWithRetries att test config).maxAttempts = maxAttemptsOf test config) := by
  refine ⟨rfl, ?_, ?_⟩
  · intro hfail
    have h1 : 1 ≤ maxAttemptsOf test config := Nat.succ_le_succ (Nat.zero_le _)
    have := workerAttemptLoop_of_all_fail att (maxAttemptsOf test config)
      (maxAttemptsOf test config - 1) 1 rfl h1 (fun k hk hk2 => hfail k hk hk2)
    unfold runWithRetries
    rw [this]
    exact ⟨rfl, rfl, hfail _ h1 le_rfl⟩
  · intro k hk1 hkm hsucc hbefore
    have := workerAttemptLoop_of_first_success att (maxAttemptsOf test config)
      (k - 1) 1 k rfl hk1 hkm hsucc hbefore
    unfold runWithRetries
    rw [this]
    exact ⟨hsucc, rfl, rfl⟩

/-- Witness for C1: with `retries = 3` (so `maxAttempts = 4`) and first
success on attempt 2, the controller returns `success = true`,
`attempt = 2`, `maxAttempts = 4`. -/
theorem retry_controller_spec_witness :
    (runWithRetries c1Att c1Test {}).success = true
    ∧ (runWithRetries c1Att c1Test {}).attempt = 2
    ∧ (runWithRetries c1Att c1Test {}).maxAttempts = 4 :=
  (retry_controller_spec c1Test {} c1Att).2.2 2 (by decide) (by decide) (by decide)
    (by intro j h1 h2; interval_cases j; decide)

/-! ## Timeout race (worker loop lines 330-351)

Each attempt races `runTest` against a `setTimeout` timer of
`test.timeout ?? config.testTimeout ?? 60000` ms. -/

/-- `const testTimeout = test.timeout ?? config.testTimeout ?? 60000`
(line 327). -/
def effTestTimeout (test : Test) (config : RunConfig) : Nat :=
  test.timeout.getD (config.testTimeout.getD 60000)

/-- The message of the error the timer rejects with (line 332). -/
def timeoutMessage (t : Nat) : String := "Test timed out after " ++ toString t ++ "ms"

/-- The synthesized failed result built in the worker's catch block
(lines 340-350): empty action list, `success: false`, the timeout error
message. -/
def timedOutResult (name : String) (t : Nat) : TestResult :=
  { name := name, actions := [], success := false, error := some (timeoutMessage t) }

/-- `Promise.race([runTest(...), timeoutPromise])` (line 338) plus the
catch block: `d` is the duration the attempt itself would take; the race
settles after `min d timeout` ms, with the attempt's own result when the
attempt finishes no later than the timer, else with the synthesized
timeout failure. Returns (settled result, elapsed ms). -/
def raceWithTimeout (attemptRes : TestResult) (d timeout : Nat) (name : String) :
    TestResult × Nat :=
  if d ≤ timeout then (attemptRes, d) else (timedOutResult name timeout, timeout)

/-- C3: an attempt is raced against a timer of
`test.timeout ?? config.testTimeout`; when the timer fires before the
attempt completes, the settled result is the synthesized failed
TestResult (success false, no action entries, an explicit timeout error
message), and the race settles at the timeout instant, strictly before
the abandoned attempt would have completed. -/
theorem attempt_timeout_race (test : Test) (config : RunConfig) (T : Nat)
    (hT : config.testTimeout = some T) (r : TestResult) (d : Nat)
    (hd : effTestTimeout test config < d) :
    effTestTimeout test config = test.timeout.getD T
    ∧ raceWithTimeout r d (effTestTimeout test config) test.name
        = (timedOutResult test.name (effTestTimeout test config), effTestTimeout test config)
    ∧ (timedOutResult test.name (effTestTimeout test config)).success = false
    ∧ (timedOutResult test.name (effTestTimeout test config)).actions = []
    ∧ (timedOutResult test.name (effTestTimeout test config)).error
        = some (timeoutMessage (effTestTimeout test config))
    ∧ (raceWithTimeout r d (effTestTimeout test config) test.name).2 < d := by
  have hrace : raceWithTimeout r d (effTestTimeout test config) test.name
      = (timedOutResult test.name (effTestTimeout test config), effTestTimeout test config) := by
    unfold raceWithTimeout
    rw [if_neg (Nat.not_le.mpr hd)]
  refine ⟨?_, hrace, rfl, rfl, rfl, ?_⟩
  · unfold effTestTimeout
    rw [hT, Option.getD_some]
  · rw [hrace]
    exact hd

/-- Witness for C3: a test with `timeout = 5` under a config with
`testTimeout = 100`, whose attempt would take 7 ms, settles at 5 ms with
the synthesized timeout failure. -/
theorem attempt_timeout_race_witness :
    effTestTimeout { name := "w", timeout := some 5 } { testTimeout := some 100 } = 5
    ∧ raceWithTimeout { name := "w" } 7
        (effTestTimeout { name := "w", timeout := some 5 } { testTimeout := some 100 }) "w"
      = (timedOutResult "w" 5, 5) := by
  have h := attempt_timeout_race { name := "w", timeout := some 5 }
    { testTimeout := some 100 } 100 rfl { name := "w" } 7 (by decide)
  exact ⟨rfl, h.2.1⟩

/-! ## Per-attempt action loop (`runTest`, lines 157-211 and 234-236)

The outcome of `executeAction` is abstracted by an oracle:
`outcomes i k = none` when attempt `k` (0-based) of action number `i`
succeeds, `some msg` when it throws with message `msg`. -/

/-- `const maxActionRetries = action.retries ?? config.actionRetries ?? 0`
(line 159). -/
def effActionRetries (a : Action) (config : RunConfig) : Nat :=
  a.retries.getD (config.actionRetries.getD 0)

/-- The inner `for (let attempt = 0; attempt <= maxActionRetries; ...)`
loop of one action (lines 163-210): stops at the first successful
attempt, or retries while attempts remain and otherwise keeps the final
error. Returns the stopping attempt index and `none` (success) or the
final error. -/
def actionAttemptLoop (outcome : Nat → Option String) (maxR a : Nat) : Nat × Option String :=
  match outcome a with
  | none => (a, none)
  | some e => if a < maxR then actionAttemptLoop outcome maxR (a + 1) else (a, some e)
termination_by maxR - a
decreasing_by omega

/-- The entry pushed on success (lines 178-186): `actionRetries` is
recorded only when the success needed at least one retry. -/
def successEntry (a : Action) (k : Nat) : ActionEntry :=
  { action := a, success := true, error := none,
    actionRetries := if 0 < k then some k else none }

/-- The entry pushed on final failure (lines 197-206): `actionRetries` is
recorded when the retry budget was positive. -/
def failedEntry (a : Action) (maxR k : Nat) (e : String) : ActionEntry :=
  { action := a, success := false, error := some e,
    actionRetries := if 0 < maxR then some k else none }

/-- The outer `for (let i = 0; i < test.actions.length; i++)` loop
(lines 157-211): actions in declared order, each through its own
attempt loop; a final failure rethrows, so iteration stops and no later
action is reached. The oracle is shifted by one action per recursive
step, so `outcomes 0` always belongs to the head action. -/
def runActions (config : RunConfig) :
    (Nat → Nat → Option String) → List Action → List ActionEntry × Option String
  | _, [] => ([], none)
  | outcomes, a :: rest =>
    let maxR := effActionRetries a config
    let stop := actionAttemptLoop (outcomes 0) maxR 0
    match stop.2 with
    | none =>
      let tail := runActions config (fun i => outcomes (i + 1)) rest
      (successEntry a stop.1 :: tail.1, tail.2)
    | some e => ([failedEntry a maxR stop.1 e], some e)

/-- The attempt's TestResult as fixed by the action loop together with
the catch block of `runTest` (lines 234-236): success iff no terminal
error was thrown. -/
def runTestActions (test : Test) (config : RunConfig)
    (outcomes : Nat → Nat → Option String) : TestResult :=
  let out := runActions config outcomes test.actions
  { name := test.name, actions := out.1, success := out.2.isNone, error := out.2 }

/-- When every attempt of an action up to its retry budget fails, its
attempt loop stops at the budget with the final attempt's error. -/
theorem actionAttemptLoop_all_fail (outcome : Nat → Option String) (maxR : Nat) :
    ∀ n a, n = maxR - a → a ≤ maxR →
    (∀ k, a ≤ k → k ≤ maxR → (outcome k).isSome = true) →
    actionAttemptLoop outcome maxR a = (maxR, outcome maxR) := by
  intro n
  induction n with
  | zero =>
    intro a hn ha hfail
    have ha' : a = maxR := by omega
    subst ha'
    obtain ⟨e, he⟩ := Option.isSome_iff_exists.mp (hfail a le_rfl le_rfl)
    rw [actionAttemptLoop]
    simp [he]
  | succ n ih =>
    intro a hn ha hfail
    have hlt : a < maxR := by omega
    obtain ⟨e, he⟩ := Option.isSome_iff_exists.mp (hfail a le_rfl ha)
    rw [actionAttemptLoop]
    simp only [he]
    rw [if_pos hlt]
    exact ih (a + 1) (by omega) hlt (fun k hk hk2 => hfail k (by omega) hk2)

/-- When attempt `k` is the first success of an action, its attempt loop
stops there with no error. -/
theorem actionAttemptLoop_first_success (outcome : Nat → Option String) (maxR : Nat) :
    ∀ n a k, n = k - a → a ≤ k → k ≤ maxR → outcome k = none →
    (∀ j, a ≤ j → j < k → (outcome j).isSome = true) →
    actionAttemptLoop outcome maxR a = (k, none) := by
  intro n
  induction n with
  | zero =>
    intro a k hn ha _ hsucc _
    have ha' : a = k := by omega
    subst ha'
    rw [actionAttemptLoop]
    simp [hsucc]
  | succ n ih =>
    intro a k hn ha hk hsucc hbefore
    have hlt : a < k := by omega
    obtain ⟨e, he⟩ := Option.isSome_iff_exists.mp (hbefore a le_rfl hlt)
    rw [actionAttemptLoop]
    simp only [he]
    rw [if_pos (by omega)]
    exact ih (a + 1) k (by omega) hlt hk hsucc (fun j hj hj2 => hbefore j (by omega) hj2)

/-- Core lemma for C4: if actions before position `j` each succeed within
their retry budgets and action `j` exhausts its budget, the loop yields
entries for exactly actions `0..j` in declared order, the earlier entries
successful, the last the failed entry, and the terminal error is action
`j`'s final error. -/
theorem runActions_fail_at (config : RunConfig) :
    ∀ (acts : List Action) (outcomes : Nat → Nat → Option String) (j : Nat),
    j < acts.length →
    (∀ i, i < j →
      ∃ k, k ≤ effActionRetries (acts.getD i ⟨"", none⟩) config ∧ outcomes i k = none) →
    (∀ k, k ≤ effActionRetries (acts.getD j ⟨"", none⟩) config →
      (outcomes j k).isSome = true) →
    ∃ pre e,
      outcomes j (effActionRetries (acts.getD j ⟨"", none⟩) config) = some e
      ∧ (runActions config outcomes acts).1
          = pre ++ [failedEntry (acts.getD j ⟨"", none⟩)
              (effActionRetries (acts.getD j ⟨"", none⟩) config)
              (effActionRetries (acts.getD j ⟨"", none⟩) config) e]
      ∧ pre.map ActionEntry.action = acts.take j
      ∧ (∀ ent ∈ pre, ent.success = true)
      ∧ (runActions config outcomes acts).2 = some e := by
  intro acts
  induction acts with
  | nil => intro outcomes j hj; exact absurd hj (by simp)
  | cons a rest ih =>
    intro outcomes j hj hok hfail
    cases j with
    | zero =>
      simp only [List.getD_cons_zero] at hfail ⊢
      have hloop := actionAttemptLoop_all_fail (outcomes 0)
        (effActionRetries a config) (effActionRetries a config) 0 (by omega)
        (Nat.zero_le _) (fun k _ hk2 => hfail k hk2)
      obtain ⟨e, he⟩ := Option.isSome_iff_exists.mp (hfail _ le_rfl)
      refine ⟨[], e, he, ?_, by simp, by simp, ?_⟩
      · simp only [runActions, hloop, he, List.nil_append]
      · simp only [runActions, hloop, he]
    | succ j' =>
      obtain ⟨k, hk, hksucc⟩ := hok 0 (Nat.succ_pos _)
      simp only [List.getD_cons_zero] at hk hksucc
      have hfind : ∃ m, outcomes 0 m = none := ⟨k, hksucc⟩
      set k0 := Nat.find hfind with hk0def
      have hk0succ : outcomes 0 k0 = none := Nat.find_spec hfind
      have hk0min : ∀ m, m < k0 → (outcomes 0 m).isSome = true := by
        intro m hm
        have := Nat.find_min hfind hm
        exact Option.ne_none_iff_isSome.mp this
      have hk0le : k0 ≤ effActionRetries a config :=
        le_trans (Nat.find_min' hfind hksucc) hk
      have hloop := actionAttemptLoop_first_success (outcomes 0)
        (effActionRetries a config) k0 0 k0 (by omega) (Nat.zero_le _) hk0le
        hk0succ (fun m _ hm2 => hk0min m hm2)
      simp only [List.getD_cons_succ] at hfail
      obtain ⟨pre, e, he, hentries, hpre, hpresucc, herr⟩ :=
        ih (fun i => outcomes (i + 1)) j' (by simpa using hj)
          (fun i hi => by
            obtain ⟨m, hm1, hm2⟩ := hok (i + 1) (by omega)
            exact ⟨m, by simpa using hm1, hm2⟩)
          hfail
      refine ⟨successEntry a k0 :: pre, e, he, ?_, ?_, ?_, ?_⟩
      · simp only [runActions, hloop, hentries, List.cons_append,
          List.getD_cons_succ]
      · simp [hpre, successEntry]
      · intro ent hent
        rcases List.mem_cons.mp hent with h | h
        · subst h; rfl
        · exact hpresucc ent h
      · simp only [runActions, hloop, List.getD_cons_succ, herr]

/-- C4: within one attempt, actions run in declared order, each with up
to `action.retries ?? config.actionRetries ?? 0` local retries; when
action `j` still fails after its final retry, the per-action outcome
list has entries for exactly actions `0..j` (in declared order, the
earlier ones successful, none past the failed one), and the attempt's
TestResult has `success = false` with action `j`'s final error as its
terminal error. -/
theorem action_loop_fail_fast (test : Test) (config : RunConfig)
    (outcomes : Nat → Nat → Option String) (j : Nat)
    (hj : j < test.actions.length)
    (hok : ∀ i, i < j →
      ∃ k, k ≤ effActionRetries (test.actions.getD i ⟨"", none⟩) config
        ∧ outcomes i k = none)
    (hfail : ∀ k, k ≤ effActionRetries (test.actions.getD j ⟨"", none⟩) config →
      (outcomes j k).isSome = true) :
    ∃ pre e,
      outcomes j (effActionRetries (test.actions.getD j ⟨"", none⟩) config) = some e
      ∧ (runTestActions test config outcomes).actions
          = pre ++ [failedEntry (test.actions.getD j ⟨"", none⟩)
              (effActionRetries (test.actions.getD j ⟨"", none⟩) config)
              (effActionRetries (test.actions.getD j ⟨"", none⟩) config) e]
      ∧ pre.map ActionEntry.action = test.actions.take j
      ∧ (∀ ent ∈ pre, ent.success = true)
      ∧ (runTestActions test config outcomes).actions.length = j + 1
      ∧ (runTestActions test config outcomes).actions.map ActionEntry.action
          = test.actions.take (j + 1)
      ∧ (runTestActions test config outcomes).success = false
      ∧ (runTestActions test config outcomes).error = some e := by
  obtain ⟨pre, e, he, hentries, hpre, hpresucc, herr⟩ :=
    runActions_fail_at config test.actions outcomes j hj hok hfail
  have hpreLen : pre.length = j := by
    have := congrArg List.length hpre
    simpa [Nat.min_eq_left (Nat.le_of_lt hj)] using this
  have hactions : (runTestActions test config outcomes).actions
      = pre ++ [failedEntry (test.actions.getD j ⟨"", none⟩)
          (effActionRetries (test.actions.getD j ⟨"", none⟩) config)
          (effActionRetries (test.actions.getD j ⟨"", none⟩) config) e] := by
    simp only [runTestActions, hentries]
  refine ⟨pre, e, he, hactions, hpre, hpresucc, ?_, ?_, ?_, ?_⟩
  · rw [hactions]
    simp [hpreLen]
  · rw [hactions]
    have hget : test.actions[j]? = some (test.actions.getD j ⟨"", none⟩) := by
      rw [List.getElem?_eq_getElem hj, List.getD_eq_getElem _ _ hj]
    rw [List.map_append, hpre, List.take_succ, hget]
    rfl
  · simp only [runTestActions, herr, Option.isNone_some]
  · simp only [runTestActions, herr]

/-- Concrete outcome oracle for the C4 witness: action 0 succeeds at
once, every attempt of any later action fails. -/
def c4Out : Nat → Nat → Option String :=
  fun i _ => if i = 0 then none else some "boom"

/-- Concrete test for the C4 witness: two actions with no retry budget. -/
def c4Test : Test :=
  { name := "t4", actions := [⟨"goto", none⟩, ⟨"click", none⟩] }

/-- Witness for C4: with action 0 succeeding and action 1 exhausting its
(empty) retry budget, the attempt fails with action 1's error and the
outcome list stops at action 1. -/
theorem action_loop_fail_fast_witness :
    ∃ pre e,
      c4Out 1 (effActionRetries (c4Test.actions.getD 1 ⟨"", none⟩) {}) = some e
      ∧ (runTestActions c4Test {} c4Out).actions
          = pre ++ [failedEntry (c4Test.actions.getD 1 ⟨"", none⟩)
              (effActionRetries (c4Test.actions.getD 1 ⟨"", none⟩) {})
              (effActionRetries (c4Test.actions.getD 1 ⟨"", none⟩) {}) e]
      ∧ pre.map ActionEntry.action = c4Test.actions.take 1
      ∧ (∀ ent ∈ pre, ent.success = true)
      ∧ (runTestActions c4Test {} c4Out).actions.length = 2
      ∧ (runTestActions c4Test {} c4Out).actions.map ActionEntry.action
          = c4Test.actions.take 2
      ∧ (runTestActions c4Test {} c4Out).success = false
      ∧ (runTestActions c4Test {} c4Out).error = some e :=
  action_loop_fail_fast c4Test {} c4Out 1 (by decide)
    (fun i hi => ⟨0, by omega, by interval_cases i; rfl⟩)
    (fun k hk => by
      have : k = 0 := by
        simpa [effActionRetries, c4Test] using hk
      subst this
      rfl)

/-! ## Suite hooks around the run (`runTestsParallel`, lines 272-297 and
399-423)

The hook batches execute on a dedicated browser; their outcome is
abstracted by `hookRun : List Action → Option String` (`none` = the
sequence completed, `some e` = it threw with message `e`). The scheduler
body in between is abstracted by the list of results it accumulates. -/

/-- The control flow of `runTestsParallel` around its worker-pool body:
a non-empty merged `beforeAll` sequence runs first and rethrows its
error (lines 276-297); the body then accumulates the results; a
non-empty merged `afterAll` sequence runs last with its error caught and
only logged (lines 399-414); the accumulated results are returned
(line 422). -/
def runTestsParallelHooks (config : RunConfig) (suiteHooks : Option HookSet)
    (hookRun : List Action → Option String) (body : Unit → List TestResult) :
    Except String (List TestResult) :=
  let hooks := mergeHooks config.hooks suiteHooks
  let pre : Option String := if hooks.beforeAll.isEmpty then none else hookRun hooks.beforeAll
  match pre with
  | some e => .error e
  | none =>
    let results := body ()
    let _post : Option String :=
      if hooks.afterAll.isEmpty then none else hookRun hooks.afterAll
    .ok results

/-- C6: when the merged `beforeAll` sequence is non-empty and fails,
`run()` propagates that error, whatever the rest of the run would have
produced: the outcome is `.error e` for every possible body, so no
TestResult is produced before the rejection. -/
theorem beforeAll_failure_aborts_run (config : RunConfig) (suiteHooks : Option HookSet)
    (hookRun : List Action → Option String) (e : String)
    (hne : (mergeHooks config.hooks suiteHooks).beforeAll ≠ [])
    (herr : hookRun (mergeHooks config.hooks suiteHooks).beforeAll = some e) :
    ∀ body : Unit → List TestResult,
      runTestsParallelHooks config suiteHooks hookRun body = .error e := by
  intro body
  simp only [runTestsParallelHooks]
  rw [if_neg (by simpa [List.isEmpty_iff] using hne), herr]

/-- Witness for C6: a suite `beforeAll` of one action that throws makes
the run reject with that error, for a body that would have produced one
result. -/
theorem beforeAll_failure_aborts_run_witness :
    runTestsParallelHooks {} (some { beforeAll := [⟨"goto", none⟩] })
      (fun _ => some "setup failed") (fun _ => [{ name := "t" }])
      = .error "setup failed" :=
  beforeAll_failure_aborts_run {} (some { beforeAll := [⟨"goto", none⟩] })
    (fun _ => some "setup failed") "setup failed" (by decide) rfl
    (fun _ => [{ name := "t" }])

/-- C7: when the `beforeAll` phase passes (or is empty) and the merged
`afterAll` sequence is non-empty and fails, the failure is suppressed:
`run()` still returns exactly the accumulated results, so the number of
passing results is unchanged. -/
theorem afterAll_failure_suppressed (config : RunConfig) (suiteHooks : Option HookSet)
    (hookRun : List Action → Option String) (e : String)
    (body : Unit → List TestResult)
    (hpre : (mergeHooks config.hooks suiteHooks).beforeAll = []
      ∨ hookRun (mergeHooks config.hooks suiteHooks).beforeAll = none)
    (hne : (mergeHooks config.hooks suiteHooks).afterAll ≠ [])
    (herr : hookRun (mergeHooks config.hooks suiteHooks).afterAll = some e) :
    runTestsParallelHooks config suiteHooks hookRun body = .ok (body ())
    ∧ ((body ()).filter (fun r => r.success)).length
        = ((body ()).filter (fun r => r.success)).length := by
  refine ⟨?_, rfl⟩
  simp only [runTestsParallelHooks]
  rcases hpre with hpre | hpre
  · rw [if_pos (by simp [hpre])]
  · by_cases hbe : (mergeHooks config.hooks suiteHooks).beforeAll.isEmpty = true
    · rw [if_pos hbe]
    · rw [if_neg hbe, hpre]

/-- Witness for C7: two passing results survive an `afterAll` failure
unchanged. -/
theorem afterAll_failure_suppressed_witness :
    runTestsParallelHooks {} (some { afterAll := [⟨"evaluate", none⟩] })
      (fun _ => some "teardown failed")
      (fun _ => [{ name := "t1" }, { name := "t2" }])
      = .ok [{ name := "t1" }, { name := "t2" }] :=
  (afterAll_failure_suppressed {} (some { afterAll := [⟨"evaluate", none⟩] })
    (fun _ => some "teardown failed") "teardown failed"
    (fun _ => [{ name := "t1" }, { name := "t2" }])
    (Or.inl rfl) (by decide) rfl).1

/-! ## Backpressure gate (`waitForSlot`, runner.js lines 69-86)

The pressure query is abstracted by an oracle
`statusAt : Nat → Except String PoolStatus` giving, for each elapsed
waiting time, either the parsed pool status or the query's thrown error.
Time advances only through `sleep(pollIntervalMs)`, so the elapsed time
is always a multiple of the poll interval; the poll interval is positive
(real timers tick), which is what makes the loop leave the window. -/

/-- The record returned by `getPoolStatus` as consumed by `waitForSlot`
(`sessions` carried separately below). -/
structure PoolStatus where
  available : Bool
  running : Nat
  maxConcurrent : Nat
  queued : Nat
deriving Repr, DecidableEq

/-- The free-slot test of line 74:
`status.available && status.running < status.maxConcurrent`. -/
def hasSlot (s : PoolStatus) : Bool :=
  s.available && decide (s.running < s.maxConcurrent)

/-- The `while (Date.now() - start < maxWaitMs)` loop of `waitForSlot`
(lines 71-83): each iteration checks the window, queries the pool
(returning on a free slot, and returning on a query error so that
`connectToPool` reports the failure), else sleeps `poll` ms. The value
returned is the total elapsed waiting time at the moment the function
returns. -/
def waitForSlot (statusAt : Nat → Except String PoolStatus) (poll maxWait : Nat)
    (hpoll : 0 < poll) (elapsed : Nat) : Nat :=
  if elapsed < maxWait then
    match statusAt elapsed with
    | .error _ => elapsed
    | .ok s =>
      if hasSlot s then elapsed
      else waitForSlot statusAt poll maxWait hpoll (elapsed + poll)
  else elapsed
termination_by maxWait - elapsed
decreasing_by omega

/-- A pressure oracle that always reports saturation. -/
def saturatedOracle : Nat → Except String PoolStatus :=
  fun _ => .ok { available := true, running := 5, maxConcurrent := 5, queued := 3 }

/-- Counterexample to C8 as stated: with `pollIntervalMs = 7000` and
`maxWaitMs = 10000` under continuous saturation, `waitForSlot` returns
only after 14000 ms of waiting, which exceeds `maxWaitMs`. -/
theorem waitForSlot_can_exceed_maxWait :
    waitForSlot saturatedOracle 7000 10000 (by decide) 0 = 14000
    ∧ ¬(14000 ≤ 10000) := by
  constructor
  · rw [waitForSlot]
    rw [if_pos (by decide)]
    show (if hasSlot _ then _ else waitForSlot saturatedOracle 7000 10000 _ 7000) = _
    rw [if_neg (by decide)]
    rw [waitForSlot]
    rw [if_pos (by decide)]
    show (if hasSlot _ then _ else waitForSlot saturatedOracle 7000 10000 _ 14000) = _
    rw [if_neg (by decide)]
    rw [waitForSlot]
    rw [if_neg (by decide)]
  · decide

/-- C8 (amended): under continuous saturation the gate still terminates
with bounded waiting: it returns at the first poll boundary at or past
`maxWaitMs`, so it waits at least `maxWaitMs` but strictly less than
`maxWaitMs + pollIntervalMs`; acquisition is then attempted regardless. -/
theorem waitForSlot_bounded_wait (statusAt : Nat → Except String PoolStatus)
    (poll maxWait : Nat) (hpoll : 0 < poll)
    (hsat : ∀ t, ∃ s, statusAt t = .ok s ∧ hasSlot s = false) :
    maxWait ≤ waitForSlot statusAt poll maxWait hpoll 0
    ∧ waitForSlot statusAt poll maxWait hpoll 0 < maxWait + poll := by
  suffices h : ∀ n elapsed, maxWait - elapsed ≤ n → elapsed < maxWait + poll →
      maxWait ≤ waitForSlot statusAt poll maxWait hpoll elapsed
      ∧ waitForSlot statusAt poll maxWait hpoll elapsed < maxWait + poll by
    exact h maxWait 0 (by omega) (by omega)
  intro n
  induction n with
  | zero =>
    intro elapsed hn hlt
    have hge : maxWait ≤ elapsed := by omega
    rw [waitForSlot, if_neg (by omega)]
    exact ⟨hge, hlt⟩
  | succ n ih =>
    intro elapsed hn hlt
    by_cases hwin : elapsed < maxWait
    · obtain ⟨s, hs, hslot⟩ := hsat elapsed
      rw [waitForSlot, if_pos hwin, hs]
      simp only [hslot, Bool.false_eq_true, if_false]
      exact ih (elapsed + poll) (by omega) (by omega)
    · rw [waitForSlot, if_neg hwin]
      exact ⟨by omega, hlt⟩

/-- Witness for C8 (amended): with the always-saturated oracle,
poll 7000 and window 10000 the gate waits between 10000 and 16999 ms. -/
theorem waitForSlot_bounded_wait_witness :
    10000 ≤ waitForSlot saturatedOracle 7000 10000 (by decide) 0
    ∧ waitForSlot saturatedOracle 7000 10000 (by decide) 0 < 17000 :=
  waitForSlot_bounded_wait saturatedOracle 7000 10000 (by decide)
    (fun _ => ⟨{ available := true, running := 5, maxConcurrent := 5, queued := 3 },
      rfl, rfl⟩)

/-- C9: if the very first pressure query throws (pool unreachable) and
the wait window is open, the gate returns with zero elapsed waiting —
no poll delay and no further query — leaving the failure to
`connectToPool`. -/
theorem waitForSlot_returns_on_query_error (statusAt : Nat → Except String PoolStatus)
    (poll maxWait : Nat) (hpoll : 0 < poll) (e : String)
    (hw : 0 < maxWait) (hq : statusAt 0 = .error e) :
    waitForSlot statusAt poll maxWait hpoll 0 = 0 := by
  rw [waitForSlot, if_pos hw, hq]

/-- Witness for C9: a concrete unreachable-pool oracle makes the gate
return immediately. -/
theorem waitForSlot_returns_on_query_error_witness :
    waitForSlot (fun _ => .error "fetch failed") 2000 60000 (by decide) 0 = 0 :=
  waitForSlot_returns_on_query_error (fun _ => .error "fetch failed")
    2000 60000 (by decide) "fetch failed" (by decide) rfl

/-! ## Pool status query (`getPoolStatus`, pool.js lines 115-144) -/

/-- Outcome of one `fetch` call inside `getPoolStatus`: `reject` models a
rejected fetch promise (network error; a body whose JSON parse throws
lands in the same catch and is modelled the same way), `nonOk` a
response with `res.ok` false, `ok` a parsed body. -/
inductive FetchOutcome (α : Type) where
  | reject (e : String)
  | nonOk
  | ok (body : α)
deriving Repr, DecidableEq

/-- The `pressure` object of the `/pressure` JSON body; the code reads
every field through `?.` and `??`, so each may be absent. -/
structure PressureInfo where
  isAvailable : Option Bool := none
  running : Option Nat := none
  maxConcurrent : Option Nat := none
  queued : Option Nat := none
deriving Repr, DecidableEq

/-- The `/pressure` JSON body: `{ pressure: {...} }`, possibly without
the `pressure` key. -/
structure PressureBody where
  pressure : Option PressureInfo := none
deriving Repr, DecidableEq

/-- The record `getPoolStatus` resolves with (sessions are opaque
JSON values, modelled as strings). -/
structure PoolStatusRecord where
  available : Bool
  running : Nat
  maxConcurrent : Nat
  queued : Nat
  sessions : List String
  error : Option String := none
deriving Repr, DecidableEq

/-- The full catch-branch record of lines 135-142. -/
def poolStatusFailure (e : String) : PoolStatusRecord :=
  { available := false, running := 0, maxConcurrent := 0, queued := 0,
    sessions := [], error := some e }

/-- `getPoolStatus(poolUrl)` of pool.js (lines 115-144) with the two
parallel fetches abstracted by their outcomes. `Promise.all` rejects as
soon as either fetch rejects, landing in the catch block (lines
134-143); otherwise a non-OK response leaves `null` for its half
(lines 124-125) and the `??` / `|| []` defaults apply per field
(lines 127-133). -/
def getPoolStatus (pres : FetchOutcome PressureBody)
    (sess : FetchOutcome (List String)) : PoolStatusRecord :=
  match pres, sess with
  | .reject e, _ => poolStatusFailure e
  | _, .reject e => poolStatusFailure e
  | p, s =>
    let pressure : Option PressureBody :=
      match p with | .ok b => some b | _ => none
    let sessions : Option (List String) :=
      match s with | .ok l => some l | _ => none
    { available := ((pressure.bind PressureBody.pressure).bind PressureInfo.isAvailable).getD false
      running := ((pressure.bind PressureBody.pressure).bind PressureInfo.running).getD 0
      maxConcurrent := ((pressure.bind PressureBody.pressure).bind PressureInfo.maxConcurrent).getD 0
      queued := ((pressure.bind PressureBody.pressure).bind PressureInfo.queued).getD 0
      sessions := sessions.getD [] }

/-- Counterexample to C10 as stated: with a non-OK pressure response but
an OK sessions response listing one session, `getPoolStatus` zeroes the
pressure fields yet returns the non-empty session list, not the empty
one the claim requires on any failing query. -/
theorem getPoolStatus_keeps_sessions_on_pressure_failure :
    (getPoolStatus .nonOk (.ok ["s1"])).sessions = ["s1"]
    ∧ (getPoolStatus .nonOk (.ok ["s1"])).available = false
    ∧ (getPoolStatus .nonOk (.ok ["s1"])).sessions ≠ [] := by
  refine ⟨rfl, rfl, ?_⟩
  decide

/-- C10 (amended): `getPoolStatus` never raises; a rejected fetch yields
the full default record; when both fetches resolve, the defaults apply
per half independently: a non-OK pressure response zeroes only the
pressure-derived fields, a non-OK sessions response empties only the
session list, and OK halves keep their data. -/
theorem getPoolStatus_error_handling (e : String) (b : PressureBody) (l : List String) :
    getPoolStatus (.reject e) (.ok l) = poolStatusFailure e
    ∧ getPoolStatus (.reject e) .nonOk = poolStatusFailure e
    ∧ getPoolStatus (.reject e) (.reject e) = poolStatusFailure e
    ∧ getPoolStatus (.ok b) (.reject e) = poolStatusFailure e
    ∧ getPoolStatus .nonOk (.reject e) = poolStatusFailure e
    ∧ getPoolStatus .nonOk .nonOk
        = { available := false, running := 0, maxConcurrent := 0, queued := 0,
            sessions := [], error := none }
    ∧ (getPoolStatus .nonOk (.ok l)).available = false
    ∧ (getPoolStatus .nonOk (.ok l)).running = 0
    ∧ (getPoolStatus .nonOk (.ok l)).maxConcurrent = 0
    ∧ (getPoolStatus .nonOk (.ok l)).queued = 0
    ∧ (getPoolStatus .nonOk (.ok l)).sessions = l
    ∧ (getPoolStatus (.ok b) .nonOk).sessions = []
    ∧ (getPoolStatus (.ok b) (.ok l)).available
        = ((b.pressure).bind PressureInfo.isAvailable).getD false
    ∧ (getPoolStatus (.ok b) (.ok l)).running
        = ((b.pressure).bind PressureInfo.running).getD 0
    ∧ (getPoolStatus (.ok b) (.ok l)).sessions = l :=
  ⟨rfl, rfl, rfl, rfl, rfl, rfl, rfl, rfl, rfl, rfl, rfl, rfl, rfl, rfl, rfl⟩

/-! ## Worker pool scheduler (`runTestsParallel`, lines 299-397)

The execution of one dequeued test (backpressure gate, session, retry
controller) is abstracted by `exec : Test → TestResult`. JavaScript's
single-threaded event loop makes `queue.shift()`, `results.push(...)`
and the active counter updates atomic; a run is an interleaving of such
atomic steps, modelled by a small-step relation. The identical `worker()`
tasks are interchangeable, so a state only keeps how many are idle
(about to check the queue), which tests the busy ones hold, and how many
returned. -/

/-- `const concurrency = config.concurrency || 3` (line 299): JS `||`
falls back to 3 when the field is absent or 0. -/
def effConcurrency (config : RunConfig) : Nat :=
  match config.concurrency with
  | none => 3
  | some n => if n = 0 then 3 else n

/-- `tests.filter(t => !t.serial)` (line 307). -/
def parallelOf (tests : List Test) : List Test :=
  tests.filter (fun t => !t.serial)

/-- `tests.filter(t => t.serial)` (line 308). -/
def serialOf (tests : List Test) : List Test :=
  tests.filter (fun t => t.serial)

/-- A scheduler state: the shared pending queue, the number of workers
about to check the queue, the tests held by busy workers, the number of
workers that saw an empty queue and returned, and the shared results
array. -/
structure Sched where
  queue : List Test
  idleW : Nat
  running : List Test
  doneW : Nat
  results : List TestResult
deriving Repr, DecidableEq

/-- Observable events: a worker dequeues a test and starts executing it;
a worker finishes a test and records its result. -/
inductive Ev where
  | start (name : String)
  | finish (name : String)
deriving Repr, DecidableEq

/-- One atomic step of the worker loop (lines 319-384): `pop` is the
`queue.shift()` of a worker entering its loop body; `fin` is one busy
worker (any of them) completing its test and pushing the result;
`exit` is a worker observing `queue.length === 0` and leaving. -/
inductive Step (exec : Test → TestResult) : Sched → List Ev → Sched → Prop where
  | pop (t : Test) (rest : List Test) (idleW : Nat) (running : List Test)
      (doneW : Nat) (results : List TestResult) :
      Step exec ⟨t :: rest, idleW + 1, running, doneW, results⟩ [.start t.name]
        ⟨rest, idleW, t :: running, doneW, results⟩
  | fin (t : Test) (queue running running' : List Test) (idleW doneW : Nat)
      (results : List TestResult)
      (hrun : ∃ l1 l2, running = l1 ++ t :: l2 ∧ running' = l1 ++ l2) :
      Step exec ⟨queue, idleW, running, doneW, results⟩ [.finish t.name]
        ⟨queue, idleW + 1, running', doneW, results ++ [exec t]⟩
  | exit (idleW : Nat) (running : List Test) (doneW : Nat)
      (results : List TestResult) :
      Step exec ⟨[], idleW + 1, running, doneW, results⟩ []
        ⟨[], idleW, running, doneW + 1, results⟩

/-- Finitely many interleaved steps, accumulating the event trace. -/
inductive Steps (exec : Test → TestResult) : Sched → List Ev → Sched → Prop where
  | refl (s : Sched) : Steps exec s [] s
  | head {s s' s'' : Sched} {ev tr : List Ev} :
      Step exec s ev s' → Steps exec s' tr s'' → Steps exec s (ev ++ tr) s''

/-- The initial state of the parallel phase: the queue seeded with the
non-serial tests (line 316) and `Math.min(concurrency,
parallelTests.length)` workers started (lines 386-389). -/
def initPar (config : RunConfig) (tests : List Test) : Sched :=
  { queue := parallelOf tests
    idleW := min (effConcurrency config) (parallelOf tests).length
    running := []
    doneW := 0
    results := [] }

/-- The single fresh `worker()` invocation of the serial phase
(lines 393-397), on the queue re-seeded with the serial tests and the
results accumulated so far. -/
def initSerial (tests : List Test) (res : List TestResult) : Sched :=
  { queue := serialOf tests, idleW := 1, running := [], doneW := 0, results := res }

/-- A phase is over when every worker returned (`await Promise.all(workers)`,
line 390, resp. `await worker()`, line 396). -/
def Finished (s : Sched) : Prop := s.idleW = 0 ∧ s.running = []

/-- The names of the tests whose `finish` events occur in a trace. -/
def finishNames (tr : List Ev) : List String :=
  tr.filterMap (fun ev => match ev with | .finish n => some n | .start _ => none)

/-- The trace of a strictly sequential execution: each test's start is
immediately followed by its finish, in declared order. -/
def serialTrace (ts : List Test) : List Ev :=
  ts.flatMap (fun t => [Ev.start t.name, Ev.finish t.name])

theorem effConcurrency_pos (config : RunConfig) : 0 < effConcurrency config := by
  unfold effConcurrency
  cases config.concurrency with
  | none => exact Nat.succ_pos _
  | some n =>
    by_cases h : n = 0
    · simp [h]
    · simp [h]
      omega

/-- The inductive invariant of the worker-pool machine, relative to an
arbitrary start state: the worker count is conserved; the multiset of
results to come plus results recorded is conserved (stated via counts);
every recorded finish event consumes one pending test name; and no
worker exits while the queue is non-empty. -/
theorem Steps.invariant {exec : Test → TestResult} {s0 s : Sched} {tr : List Ev}
    (h : Steps exec s0 tr s) :
    (s.idleW + s.running.length + s.doneW
      = s0.idleW + s0.running.length + s0.doneW)
    ∧ (∀ r : TestResult,
        (s.queue.map exec).count r + (s.running.map exec).count r + s.results.count r
          = (s0.queue.map exec).count r + (s0.running.map exec).count r
            + s0.results.count r)
    ∧ (∀ nm : String,
        ((s.queue ++ s.running).map Test.name).count nm + (finishNames tr).count nm
          = ((s0.queue ++ s0.running).map Test.name).count nm)
    ∧ (s.queue ≠ [] → s.doneW = s0.doneW ∧ s.queue.length ≤ s0.queue.length) := by
  induction h with
  | refl s =>
    exact ⟨rfl, fun r => rfl, fun nm => by simp [finishNames], fun _ => ⟨rfl, le_rfl⟩⟩
  | head hstep hsteps ih =>
    obtain ⟨ih1, ih2, ih3, ih4⟩ := ih
    cases hstep with
    | pop t rest idleW running doneW results =>
      refine ⟨by simp at ih1 ⊢; omega, ?_, ?_, ?_⟩
      · intro r
        have h2 := ih2 r
        simp only [List.map_cons, List.count_cons] at h2 ⊢
        omega
      · intro nm
        have h3 := ih3 nm
        simp only [finishNames, List.filterMap_append, List.filterMap_cons,
          List.filterMap_nil] at h3 ⊢
        simp only [List.map_append, List.map_cons, List.count_append,
          List.count_cons, List.nil_append] at h3 ⊢
        omega
      · intro hne
        have := ih4 hne
        simp at this ⊢
        omega
    | fin t queue running running' idleW doneW results hrun =>
      obtain ⟨l1, l2, hr, hr'⟩ := hrun
      subst hr hr'
      refine ⟨by simp at ih1 ⊢; omega, ?_, ?_, ?_⟩
      · intro r
        have h2 := ih2 r
        simp only [List.map_append, List.map_cons, List.count_append,
          List.count_cons, List.count_nil] at h2 ⊢
        omega
      · intro nm
        have h3 := ih3 nm
        simp only [finishNames, List.filterMap_append, List.filterMap_cons,
          List.filterMap_nil] at h3 ⊢
        simp only [List.map_append, List.map_cons, List.count_append,
          List.count_cons, List.count_nil, List.nil_append] at h3 ⊢
        omega
      · intro hne
        have := ih4 hne
        simp at this ⊢
        omega
    | exit idleW running doneW results =>
      refine ⟨by simp at ih1 ⊢; omega, ih2, ?_, ?_⟩
      · intro nm
        have h3 := ih3 nm
        simpa using h3
      · intro hne
        obtain ⟨hd, hl⟩ := ih4 hne
        simp only [List.length_nil, Nat.le_zero, List.length_eq_zero] at hl
        exact absurd hl hne

/-- When the parallel phase finishes, its queue is empty: workers only
exit on an empty queue, the queue never grows, and with a positive
effective concurrency a non-empty seed queue implies at least one
worker. -/
theorem finished_queue_nil {exec : Test → TestResult} {config : RunConfig}
    {tests : List Test} {tr : List Ev} {sp : Sched}
    (h : Steps exec (initPar config tests) tr sp) (hf : Finished sp) :
    sp.queue = [] := by
  by_contra hne
  obtain ⟨h1, _, _, h4⟩ := h.invariant
  obtain ⟨hd, hl⟩ := h4 hne
  obtain ⟨hi, hr⟩ := hf
  rw [hi, hr] at h1
  have heff := effConcurrency_pos config
  simp only [initPar, List.length_nil] at h1 hd hl
  have hq : sp.queue.length = 0 := by omega
  exact hne (List.length_eq_zero.mp hq)

/-- The states a full run can pass through: any state reachable in the
parallel phase, or any state of the serial phase launched from a
finished parallel phase. -/
def ReachableRun (exec : Test → TestResult) (config : RunConfig)
    (tests : List Test) (s : Sched) : Prop :=
  (∃ tr, Steps exec (initPar config tests) tr s)
  ∨ (∃ sp trp trs, Steps exec (initPar config tests) trp sp ∧ Finished sp
      ∧ Steps exec (initSerial tests sp.results) trs s)

/-- C2: with a configured positive concurrency `C`, the scheduler starts
exactly `min(C, number of non-serial tests)` workers on the shared
queue, and in every state any run can reach, the number of tests
simultaneously being executed is at most `C`. -/
theorem scheduler_concurrency_bound (config : RunConfig) (tests : List Test)
    (exec : Test → TestResult) (C : Nat) (hC : 0 < C)
    (hcfg : config.concurrency = some C) :
    (initPar config tests).idleW = min C (parallelOf tests).length
    ∧ ∀ s, ReachableRun exec config tests s → s.running.length ≤ C := by
  have hC0 : C ≠ 0 := by omega
  have heff : effConcurrency config = C := by
    simp [effConcurrency, hcfg, hC0]
  constructor
  · simp [initPar, heff]
  · rintro s (⟨tr, hs⟩ | ⟨sp, trp, trs, hp, hf, hs⟩)
    · have h1 := hs.invariant.1
      simp only [initPar, List.length_nil] at h1
      rw [heff] at h1
      omega
    · have h1 := hs.invariant.1
      simp only [initSerial, List.length_nil] at h1
      omega

/-- Concrete parallel test for the scheduler witnesses. -/
def tA : Test := { name := "A" }

/-- Concrete serial test for the scheduler witnesses. -/
def tB : Test := { name := "B", serial := true }

/-- Concrete execution oracle for the scheduler witnesses. -/
def execW : Test → TestResult := fun t => { name := t.name }

/-- Witness for C2: the initial state of a run with concurrency 2 over
one parallel test is reachable and respects the bound. -/
theorem scheduler_concurrency_bound_witness :
    (initPar { concurrency := some 2 } [tA]).running.length ≤ 2 :=
  (scheduler_concurrency_bound { concurrency := some 2 } [tA] execW 2
    (by decide) rfl).2 _ (Or.inl ⟨[], Steps.refl _⟩)

/-- A finished single-worker state admits no further step, so a
`Steps` derivation from it is trivial. -/
theorem Steps.stuck {exec : Test → TestResult} {d : Nat} {res : List TestResult}
    {tr : List Ev} {s' : Sched}
    (h : Steps exec ⟨[], 0, [], d, res⟩ tr s') :
    s' = ⟨[], 0, [], d, res⟩ ∧ tr = [] := by
  cases h with
  | refl => exact ⟨rfl, rfl⟩
  | head hstep hsteps =>
    cases hstep with
    | fin t queue running running' idleW doneW results hrun =>
      obtain ⟨l1, l2, hr, _⟩ := hrun
      exact absurd hr.symm (by simp)

/-- Determinism of the single-worker phase: a lone worker on queue `q`
runs the tests of `q` in order, one at a time, appending their results
in order and producing the strictly sequential trace. -/
theorem Steps.single_worker {exec : Test → TestResult} :
    ∀ (q : List Test) (d : Nat) (res : List TestResult) {tr : List Ev} {s' : Sched},
    Steps exec ⟨q, 1, [], d, res⟩ tr s' → Finished s' →
    s'.results = res ++ q.map exec ∧ tr = serialTrace q ∧ s'.queue = [] := by
  intro q
  induction q with
  | nil =>
    intro d res tr s' h hf
    cases h with
    | refl => exact absurd hf.1 (by simp)
    | head hstep hsteps =>
      cases hstep with
      | fin t queue running running' idleW doneW results hrun =>
        obtain ⟨l1, l2, hr, _⟩ := hrun
        exact absurd hr.symm (by simp)
      | exit idleW running doneW results =>
        obtain ⟨hs', htr⟩ := Steps.stuck hsteps
        subst hs' htr
        exact ⟨by simp, by simp [serialTrace], rfl⟩
  | cons t rest ih =>
    intro d res tr s' h hf
    cases h with
    | refl => exact absurd hf.1 (by simp)
    | head hstep hsteps =>
      cases hstep with
      | fin t0 queue running running' idleW doneW results hrun =>
        obtain ⟨l1, l2, hr, _⟩ := hrun
        exact absurd hr.symm (by simp)
      | pop t' rest' idleW running doneW results =>
        cases hsteps with
        | refl => exact absurd hf.2 (by simp)
        | head hstep2 hsteps2 =>
          cases hstep2 with
          | fin t2 queue2 running2 running2' idleW2 doneW2 results2 hrun2 =>
            obtain ⟨l1, l2, hr, hr'⟩ := hrun2
            have hl : l1 = [] ∧ t2 = t ∧ l2 = [] := by
              cases l1 with
              | nil =>
                simp only [List.nil_append, List.cons.injEq] at hr
                exact ⟨rfl, hr.1.symm, hr.2.symm⟩
              | cons x xs =>
                simp only [List.cons_append, List.cons.injEq] at hr
                exact absurd hr.2.symm (by simp)
            obtain ⟨hl1, ht2, hl2⟩ := hl
            subst hl1 hl2 ht2
            simp only [List.nil_append] at hr'
            subst hr'
            obtain ⟨h1, h2, h3⟩ := ih d (res ++ [exec t2]) hsteps2 hf
            refine ⟨?_, ?_, h3⟩
            · rw [h1]
              simp
            · rw [h2]
              simp [serialTrace]

/-- One complete run: a parallel phase from the seeded state to a
finished state, then the serial phase on the accumulated results, also
run to completion; the run's trace is the concatenation of the two
phases' traces and its value is the final results list (lines 313-397
and 422). -/
inductive RunTrace (exec : Test → TestResult) (config : RunConfig)
    (tests : List Test) : List Ev → List TestResult → Prop where
  | mk {sp s' : Sched} {trp trs : List Ev} :
      Steps exec (initPar config tests) trp sp → Finished sp →
      Steps exec (initSerial tests sp.results) trs s' → Finished s' →
      RunTrace exec config tests (trp ++ trs) s'.results

/-- C5: in every complete run, the result list is the parallel-phase
results (a permutation of the non-serial tests' results) followed by the
serial tests' results in declared order; the trace splits into a
parallel prefix containing the finish of every non-serial test, followed
by the strictly sequential serial-phase trace — so no serial test starts
before every parallel test has completed, and serial tests run one at a
time. -/
theorem serial_after_parallel (exec : Test → TestResult) (config : RunConfig)
    (tests : List Test) (tr : List Ev) (res : List TestResult)
    (h : RunTrace exec config tests tr res) :
    ∃ parRes parTr,
      res = parRes ++ (serialOf tests).map exec
      ∧ parRes.Perm ((parallelOf tests).map exec)
      ∧ tr = parTr ++ serialTrace (serialOf tests)
      ∧ (∀ t, t ∈ parallelOf tests → Ev.finish t.name ∈ parTr) := by
  cases h with
  | @mk sp s' trp trs hp hfp hs hfs =>
    have hqnil := finished_queue_nil hp hfp
    obtain ⟨hres, htr, _⟩ := Steps.single_worker (serialOf tests) 0 sp.results hs hfs
    refine ⟨sp.results, trp, by rw [hres], ?_, by rw [htr], ?_⟩
    · rw [List.perm_iff_count]
      intro r
      have h2 := hp.invariant.2.1 r
      simp only [initPar, hqnil, hfp.2, List.map_nil, List.count_nil] at h2
      omega
    · intro t ht
      have h3 := hp.invariant.2.2.1 t.name
      simp only [initPar, hqnil, hfp.2, List.append_nil, List.nil_append,
        List.map_nil, List.count_nil] at h3
      have hmem : t.name ∈ (parallelOf tests).map Test.name :=
        List.mem_map_of_mem Test.name ht
      have hpos : 0 < (finishNames trp).count t.name := by
        have := List.count_pos_iff.mpr hmem
        omega
      obtain ⟨ev, hev, hsome⟩ := List.mem_filterMap.mp (List.count_pos_iff.mp hpos)
      cases ev with
      | start n => simp at hsome
      | finish n =>
        simp only [Option.some.injEq] at hsome
        subst hsome
        exact hev

/-- Witness for C5: the run of tests `[A (parallel), B (serial)]` whose
trace executes A then B decomposes as required. -/
theorem serial_after_parallel_witness :
    ∃ parRes parTr,
      [execW tA, execW tB] = parRes ++ (serialOf [tA, tB]).map execW
      ∧ parRes.Perm ((parallelOf [tA, tB]).map execW)
      ∧ [Ev.start "A", Ev.finish "A", Ev.start "B", Ev.finish "B"]
          = parTr ++ serialTrace (serialOf [tA, tB])
      ∧ (∀ t, t ∈ parallelOf [tA, tB] → Ev.finish t.name ∈ parTr) := by
  have hp : Steps execW (initPar {} [tA, tB]) [Ev.start "A", Ev.finish "A"]
      ⟨[], 0, [], 1, [execW tA]⟩ :=
    Steps.head (Step.pop tA [] 0 [] 0 [])
      (Steps.head (Step.fin tA [] [tA] [] 0 0 [] ⟨[], [], rfl, rfl⟩)
        (Steps.head (Step.exit 0 [] 0 [execW tA]) (Steps.refl _)))
  have hs : Steps execW (initSerial [tA, tB] [execW tA])
      [Ev.start "B", Ev.finish "B"] ⟨[], 0, [], 1, [execW tA, execW tB]⟩ :=
    Steps.head (Step.pop tB [] 0 [] 0 [execW tA])
      (Steps.head (Step.fin tB [] [tB] [] 0 0 [execW tA] ⟨[], [], rfl, rfl⟩)
        (Steps.head (Step.exit 0 [] 0 [execW tA, execW tB]) (Steps.refl _)))
  exact serial_after_parallel execW {} [tA, tB] _ _
    (RunTrace.mk hp ⟨rfl, rfl⟩ hs ⟨rfl, rfl⟩)

end E2eRunner
